import Mathlib

/-!
# dispear.js : batch ether disperser

A shallow embedding of `src/dispear.js` (class `EtherDisperser`) and the
properties of its batching loop, amount arithmetic, gas scaling and
per-batch error handling.

Modelling conventions

* JavaScript `BigInt` values that are amounts of wei are `Int`; gas amounts,
  gas prices, block numbers and wallet balances, which the chain reports as
  unsigned integers, are `Nat`.  `BigInt` division of non-negative values is
  `Nat` division (both truncate).
* A JavaScript call that may throw returns `Except String α`, the string
  being `error.message`.
* The recipient list read by `loadAddresses` and the balance read at line
  139 are inputs of `start`.  Every later call that leaves the process (chain
  client, file system, timer) is recorded as an `Event`.  The state threaded
  through the program is the history of such events, and the outside world
  is an `Env` whose answers may depend on that whole history.
* `console.log` / `console.error` lines and the wall-clock timestamp of a
  record are not modelled.
-/

namespace Dispear

deriving instance DecidableEq for Except

/-- A recipient address, as a line of `add.txt`. -/
abbrev Address := String

/-- Field `BATCH_SIZE` set by the constructor (line 17). -/
def BATCH_SIZE : Nat := 900

/-- The value `ethers.parseEther(this.AMOUNT_PER_ADDRESS)` for the configured
`"0.00000065"` ETH (line 18), in wei. -/
def AMOUNT_PER_ADDRESS : Int := 650000000000

/-- The part of a transaction receipt the program reads. -/
structure Receipt where
  blockNumber : Nat
  gasUsed : Nat
  deriving DecidableEq, Repr

/-- The object `record` built by `saveTransactionRecord` (lines 103-111),
without its timestamp.  `gasUsed` is kept as a number; the source stores its
decimal rendering. -/
structure TxRecord where
  batchNo : Nat
  addressCount : Nat
  txHash : String
  blockNumber : Nat
  gasUsed : Nat
  addresses : List Address
  deriving DecidableEq, Repr

/-- The object `errorRecord` built by `saveErrorLog` (lines 120-125), without
its timestamp. -/
structure ErrorRecord where
  batchNo : Nat
  addresses : List Address
  message : String
  deriving DecidableEq, Repr

/-- Calls that leave the process, with their arguments. -/
inductive Event where
  /-- The call `this.provider.getFeeData()`. -/
  | getFeeData
  /-- The call `this.contract.disperseEther.estimateGas(recipients, values, {value})`. -/
  | estimateGas (recipients : List Address) (values : List Int) (value : Int)
  /-- The call `this.contract.disperseEther(addresses, values, {value, gasLimit, gasPrice})`. -/
  | disperseEther (recipients : List Address) (values : List Int) (value : Int)
      (gasLimit gasPrice : Nat)
  /-- The call `tx.wait()` on the transaction with the given hash. -/
  | wait (txHash : String)
  /-- The append of a success record to the transaction-record file. -/
  | appendTx (r : TxRecord)
  /-- The append of an error record to the error-log file. -/
  | appendErr (r : ErrorRecord)
  /-- A `setTimeout` pause of the given number of milliseconds. -/
  | sleep (ms : Nat)
  deriving DecidableEq, Repr

/-- The outside world.  Each field answers one kind of call; its argument is
the history of events up to and including the call being answered.

* `getFeeData` yields `feeData.gasPrice`; the error case also stands for a
  fee data object without a gas price, on which line 64 throws.
* `wait` yields the receipt; the error case also stands for a missing
  receipt, on which line 89 throws. -/
structure Env where
  getFeeData : List Event → Except String Nat
  estimateGas : List Event → Except String Nat
  disperseEther : List Event → Except String String
  wait : List Event → Except String Receipt
  appendTx : List Event → Except String Unit
  appendErr : List Event → Except String Unit

/-- The message of the `TypeError` of `Array.prototype.reduce` on an empty
array without an initial value. -/
def reduceEmptyMessage : String := "Reduce of empty array with no initial value"

/-- The expression `values.reduce((a, b) => a + b)` (lines 39 and 54): a left
fold seeded with the first element, throwing on the empty array. -/
def reduceAdd : List Int → Except String Int
  | [] => .error reduceEmptyMessage
  | v :: vs => .ok (vs.foldl (fun a b => a + b) v)

/-- The expression `array.slice(start, stop)` for non-negative indices. -/
def slice {α : Type} (xs : List α) (start stop : Nat) : List α :=
  (xs.drop start).take (stop - start)

/-- Method `estimateGas` (lines 33-47).  The `catch` block logs and rethrows,
so an error of the chain client, or of the `reduce` that computes the call
value, is the error of the method. -/
def estimateGas (env : Env) (recipients : List Address) (values : List Int)
    (tr : List Event) : Except String Nat × List Event :=
  match reduceAdd values with
  | .error e => (.error e, tr)
  | .ok value =>
    let tr1 := tr ++ [Event.estimateGas recipients values value]
    match env.estimateGas tr1 with
    | .error e => (.error e, tr1)
    | .ok gasEstimate => (.ok (gasEstimate * 12 / 10), tr1)

/-- Method `saveTransactionRecord` (lines 102-117). -/
def saveTransactionRecord (env : Env) (batchIndex : Nat) (addresses : List Address)
    (txHash : String) (receipt : Receipt) (tr : List Event) :
    Except String Unit × List Event :=
  let record : TxRecord :=
    { batchNo := batchIndex + 1
      addressCount := addresses.length
      txHash := txHash
      blockNumber := receipt.blockNumber
      gasUsed := receipt.gasUsed
      addresses := addresses }
  let tr1 := tr ++ [Event.appendTx record]
  (env.appendTx tr1, tr1)

/-- Method `saveErrorLog` (lines 119-131). -/
def saveErrorLog (env : Env) (batchIndex : Nat) (addresses : List Address)
    (message : String) (tr : List Event) : Except String Unit × List Event :=
  let errorRecord : ErrorRecord :=
    { batchNo := batchIndex + 1
      addresses := addresses
      message := message }
  let tr1 := tr ++ [Event.appendErr errorRecord]
  (env.appendErr tr1, tr1)

/-- The `try` block of `processBatch` (lines 60-94). -/
def processBatchTry (env : Env) (addresses : List Address) (batchIndex : Nat)
    (values : List Int) (totalValue : Int) (tr : List Event) :
    Except String Bool × List Event :=
  let tr1 := tr ++ [Event.getFeeData]
  match env.getFeeData tr1 with
  | .error e => (.error e, tr1)
  | .ok gasPrice =>
    match estimateGas env addresses values tr1 with
    | (.error e, tr2) => (.error e, tr2)
    | (.ok gasEstimate, tr2) =>
      let tr3 := tr2 ++ [Event.disperseEther addresses values totalValue gasEstimate gasPrice]
      match env.disperseEther tr3 with
      | .error e => (.error e, tr3)
      | .ok txHash =>
        let tr4 := tr3 ++ [Event.wait txHash]
        match env.wait tr4 with
        | .error e => (.error e, tr4)
        | .ok receipt =>
          match saveTransactionRecord env batchIndex addresses txHash receipt tr4 with
          | (.error e, tr5) => (.error e, tr5)
          | (.ok _, tr5) => (.ok true, tr5)

/-- Method `processBatch` (lines 49-100).  Lines 50-54 run before the `try`,
so the error of `reduce` on an empty batch leaves the method; an error inside
the `try` block is handled by the `catch` block, whose own call of
`saveErrorLog` is not guarded. -/
def processBatch (env : Env) (amount : Int) (addresses : List Address)
    (batchIndex : Nat) (tr : List Event) : Except String Bool × List Event :=
  let values := addresses.map (fun _ => amount)
  match reduceAdd values with
  | .error e => (.error e, tr)
  | .ok totalValue =>
    match processBatchTry env addresses batchIndex values totalValue tr with
    | (.ok b, tr1) => (.ok b, tr1)
    | (.error message, tr1) =>
      match saveErrorLog env batchIndex addresses message tr1 with
      | (.error e, tr2) => (.error e, tr2)
      | (.ok _, tr2) => (.ok false, tr2)

/-- How a run of `start` ends: at line 161 (`complete`), or in the `catch`
block of line 163 (`failed`).  `outOfFuel` is the model running out of loop
iterations, which no run with a positive batch size does. -/
inductive Outcome where
  | complete
  | failed (message : String)
  | outOfFuel
  deriving DecidableEq, Repr

/-- The result of a run: how it ended, the `processBatch` invocations it made
(batch and batch index, in order), and the history of outside calls. -/
structure RunResult where
  outcome : Outcome
  calls : List (List Address × Nat)
  trace : List Event
  deriving DecidableEq, Repr

/-- The loop of `start` (lines 147-159) from loop variable `i`, over any
`processBatch`.  An error thrown by `processBatch` leaves the loop for the
`catch` block of `start`.  After a failed batch the loop pauses 60000 ms,
after a successful one 50000 ms, and in both cases goes on with `i + B`.
The batch index `Math.floor(i / B)` is `i / B`, which agrees with the source
for every positive `B`.  The pauses are those of the code (lines 153 and
157); the comment of line 155 and the log texts of lines 152 and 156 speak of
other durations and of a retry, which the code does not do. -/
def runBatches (pb : List Address → Nat → List Event → Except String Bool × List Event)
    (addresses : List Address) (B : Nat) : Nat → Nat → List Event → RunResult
  | 0, _, tr => ⟨Outcome.outOfFuel, [], tr⟩
  | fuel + 1, i, tr =>
    if i < addresses.length then
      let batch := slice addresses i (i + B)
      match pb batch (i / B) tr with
      | (.error e, tr1) => ⟨Outcome.failed e, [(batch, i / B)], tr1⟩
      | (.ok success, tr1) =>
        let tr2 := if !success then tr1 ++ [Event.sleep 60000] else tr1 ++ [Event.sleep 50000]
        let r := runBatches pb addresses B fuel (i + B) tr2
        ⟨r.outcome, (batch, i / B) :: r.calls, r.trace⟩
    else ⟨Outcome.complete, [], tr⟩

/-- The value `totalRequired` of the preflight check (line 140). -/
def totalRequired (amount : Int) (addresses : List Address) : Int :=
  amount * (addresses.length : Int)

/-- The rendering `ethers.formatEther(wei)` of the ethers library: the decimal
value of `wei / 10^18` with a sign for negative values, the whole part, a
point, and the 18 fractional digits with trailing zeros removed down to at
least one digit (`0` gives `0.0`, `650000000000` gives `0.00000065`). -/
def formatEther (wei : Int) : String :=
  let n := wei.natAbs
  let whole := toString (n / 10 ^ 18)
  let frac := (toString (n % 10 ^ 18)).toList
  let padded := List.replicate (18 - frac.length) '0' ++ frac
  let trimmed := (padded.reverse.dropWhile (fun c => c == '0')).reverse
  let digits := if trimmed.isEmpty then ['0'] else trimmed
  (if wei < 0 then "-" else "") ++ whole ++ "." ++ String.mk digits

/-- The message of the error thrown at line 143, built from the balance and
the required total. -/
def insufficientMessage (balance : Int) (totalRequired : Int) : String :=
  "余额不足。当前余额: " ++ formatEther balance ++ " ETH, 需要: "
    ++ formatEther totalRequired ++ " ETH"

/-- Method `start` (lines 133-165) over any `processBatch`.  `loaded` is the
result of `loadAddresses()` and `balance` the result of
`provider.getBalance(wallet.address)`.  The loop gets one more iteration than
there are addresses, which is enough whenever `B` is positive. -/
def startWith (pb : List Address → Nat → List Event → Except String Bool × List Event)
    (amount : Int) (B : Nat) (loaded : Except String (List Address))
    (balance : Except String Nat) : RunResult :=
  match loaded with
  | .error e => ⟨Outcome.failed e, [], []⟩
  | .ok addresses =>
    match balance with
    | .error e => ⟨Outcome.failed e, [], []⟩
    | .ok balance =>
      if (balance : Int) < totalRequired amount addresses then
        ⟨Outcome.failed (insufficientMessage balance (totalRequired amount addresses)), [], []⟩
      else runBatches pb addresses B (addresses.length + 1) 0 []

/-- Method `start` with the program's own `processBatch`. -/
def start (env : Env) (amount : Int) (B : Nat) (loaded : Except String (List Address))
    (balance : Except String Nat) : RunResult :=
  startWith (processBatch env amount) amount B loaded balance

/-- The batches the loop of `start` cuts (lines 147-148): `slice(i, i + B)`
for `i = 0, B, 2B, ...` while `i < addresses.length`. -/
def cutBatches (addresses : List Address) (B : Nat) : Nat → Nat → List (List Address)
  | 0, _ => []
  | fuel + 1, i =>
    if i < addresses.length then
      slice addresses i (i + B) :: cutBatches addresses B fuel (i + B)
    else []

/-- All batches of a recipient list. -/
def batches (addresses : List Address) (B : Nat) : List (List Address) :=
  cutBatches addresses B (addresses.length + 1) 0

/-- The events that a call which started with history `before` added to
reach history `after`. -/
def newEvents (before after : List Event) : List Event :=
  after.drop before.length

/-- Whether an event is the append of a success record. -/
def isAppendTx : Event → Bool
  | Event.appendTx _ => true
  | _ => false

/-- Whether an event is the append of an error record. -/
def isAppendErr : Event → Bool
  | Event.appendErr _ => true
  | _ => false

/-- Following the spec's words, not the source: `ceil(rawEstimate × 1.2)`,
the least integer that is at least `12 * r / 10`. -/
def ceilScaled (r : Nat) : Nat :=
  (12 * r + 9) / 10

/-- The value `totalValue` that `processBatch` computes for a batch (lines 50-54). -/
def totalValue (amount : Int) (addresses : List Address) : Except String Int :=
  reduceAdd (addresses.map (fun _ => amount))

/-- An outside world in which every chain call and every append succeeds,
the raw gas estimate being `raw`. -/
def envOk (raw : Nat) : Env where
  getFeeData := fun _ => .ok 7
  estimateGas := fun _ => .ok raw
  disperseEther := fun _ => .ok "0xhash"
  wait := fun _ => .ok ⟨42, 21000⟩
  appendTx := fun _ => .ok ()
  appendErr := fun _ => .ok ()

/-- An outside world in which the fee data fetch fails and appends succeed. -/
def envFeeFails : Env where
  getFeeData := fun _ => .error "rpc down"
  estimateGas := fun _ => .ok 100
  disperseEther := fun _ => .ok "0xhash"
  wait := fun _ => .ok ⟨42, 21000⟩
  appendTx := fun _ => .ok ()
  appendErr := fun _ => .ok ()

/-- An outside world in which gas estimation succeeds until a success record
has been written and fails afterwards. -/
def envSecondEstimateFails : Env where
  getFeeData := fun _ => .ok 7
  estimateGas := fun t =>
    if (t.filter isAppendTx).length = 0 then .ok 100 else .error "execution reverted"
  disperseEther := fun _ => .ok "0xhash"
  wait := fun _ => .ok ⟨42, 21000⟩
  appendTx := fun _ => .ok ()
  appendErr := fun _ => .ok ()

/-- An outside world in which the fee data fetch fails and the error log
cannot be written. -/
def envLogFails : Env where
  getFeeData := fun _ => .error "rpc down"
  estimateGas := fun _ => .ok 100
  disperseEther := fun _ => .ok "0xhash"
  wait := fun _ => .ok ⟨42, 21000⟩
  appendTx := fun _ => .ok ()
  appendErr := fun _ => .error "ENOSPC: no space left on device"

/-! ## Batching: helper lemmas -/

theorem slice_length_eq {α : Type} (xs : List α) (i B : Nat) :
    (slice xs i (i + B)).length = min B (xs.length - i) := by
  simp [slice, List.length_take, List.length_drop]

theorem ceil_step (N i B : Nat) (hB : 0 < B) (hi : i < N) :
    (N - i + B - 1) / B = (N - (i + B) + B - 1) / B + 1 := by
  by_cases h : i + B ≤ N
  · have e : N - i + B - 1 = (N - (i + B) + B - 1) + B := by omega
    rw [e, Nat.add_div_right _ hB]
  · have e1 : N - (i + B) + B - 1 = B - 1 := by omega
    have e2 : N - i + B - 1 = (N - i - 1) + B := by omega
    rw [e1, e2, Nat.add_div_right _ hB, Nat.div_eq_of_lt (by omega), Nat.div_eq_of_lt (by omega)]

theorem cutBatches_eq_map (addresses : List Address) (B : Nat) (hB : 0 < B) :
    ∀ (fuel i : Nat), addresses.length - i ≤ fuel →
      cutBatches addresses B fuel i =
        (List.range ((addresses.length - i + B - 1) / B)).map
          (fun k => slice addresses (i + k * B) (i + k * B + B)) := by
  intro fuel
  induction fuel with
  | zero =>
    intro i h
    have e : addresses.length - i + B - 1 = B - 1 := by omega
    rw [e, Nat.div_eq_of_lt (by omega)]
    rfl
  | succ fuel ih =>
    intro i h
    by_cases hi : i < addresses.length
    · rw [cutBatches, if_pos hi, ih (i + B) (by omega), ceil_step _ _ _ hB hi,
        List.range_succ_eq_map, List.map_cons, List.map_map]
      congr 1
      · simp
      · apply List.map_congr_left
        intro k _
        simp only [Function.comp, Nat.succ_eq_add_one]
        have e : i + (k + 1) * B = i + B + k * B := by ring
        rw [e]
    · have e : addresses.length - i + B - 1 = B - 1 := by omega
      rw [cutBatches, if_neg hi, e, Nat.div_eq_of_lt (by omega)]
      rfl

theorem batches_eq_map (addresses : List Address) (B : Nat) (hB : 0 < B) :
    batches addresses B =
      (List.range ((addresses.length + B - 1) / B)).map
        (fun k => slice addresses (k * B) (k * B + B)) := by
  have h := cutBatches_eq_map addresses B hB (addresses.length + 1) 0 (by omega)
  simpa [batches] using h

theorem cutBatches_flatten (addresses : List Address) (B : Nat) (hB : 0 < B) :
    ∀ (fuel i : Nat), addresses.length - i ≤ fuel →
      (cutBatches addresses B fuel i).flatten = addresses.drop i := by
  intro fuel
  induction fuel with
  | zero =>
    intro i h
    have hi : addresses.length ≤ i := by omega
    simp [cutBatches, List.drop_eq_nil_of_le hi]
  | succ fuel ih =>
    intro i h
    by_cases hi : i < addresses.length
    · rw [cutBatches, if_pos hi, List.flatten_cons, ih (i + B) (by omega)]
      have e : List.drop (i + B) addresses = List.drop B (List.drop i addresses) := by
        rw [List.drop_drop]
      have e2 : i + B - i = B := by omega
      rw [slice, e, e2, List.take_append_drop]
    · have hi2 : addresses.length ≤ i := by omega
      simp [cutBatches, if_neg hi, List.drop_eq_nil_of_le hi2]

theorem ceil_mul_ge (N B : Nat) (hB : 0 < B) : N ≤ (N + B - 1) / B * B := by
  have h := Nat.lt_mul_div_succ (N + B - 1) hB
  have h2 : B * ((N + B - 1) / B + 1) = (N + B - 1) / B * B + B := by ring
  omega

theorem ceil_pred_mul_lt (N B : Nat) (hN : 0 < N) : ((N + B - 1) / B - 1) * B < N := by
  rcases Nat.eq_zero_or_pos B with hB | hB
  · subst hB; simpa using hN
  · have h := Nat.div_mul_le_self (N + B - 1) B
    have h3 : ((N + B - 1) / B - 1) * B = (N + B - 1) / B * B - B := by
      rw [Nat.sub_mul, Nat.one_mul]
    omega

theorem ceil_pos (N B : Nat) (hB : 0 < B) (hN : 0 < N) : 0 < (N + B - 1) / B := by
  apply Nat.div_pos (by omega) hB

/-! ## Batching -/

/-- C1: for a positive batch size the batches cut by the loop of `start`
partition the recipient list: concatenated in order they are the input list,
there are `ceil(N/B)` of them, every batch but the last has length `B`, and
for a non-empty list the last batch has length `N - B*(ceil(N/B) - 1)`, which
is between `1` and `B`. -/
theorem batches_partition (addresses : List Address) (B : Nat) (hB : 0 < B) :
    (batches addresses B).flatten = addresses ∧
    (batches addresses B).length = (addresses.length + B - 1) / B ∧
    (∀ k, k + 1 < (batches addresses B).length →
      ((batches addresses B)[k]?).map List.length = some B) ∧
    (0 < addresses.length →
      (batches addresses B).getLast?.map List.length
        = some (addresses.length - B * ((addresses.length + B - 1) / B - 1)) ∧
      1 ≤ addresses.length - B * ((addresses.length + B - 1) / B - 1) ∧
      addresses.length - B * ((addresses.length + B - 1) / B - 1) ≤ B) := by
  have hlen : (batches addresses B).length = (addresses.length + B - 1) / B := by
    rw [batches_eq_map addresses B hB]; simp
  have hge := ceil_mul_ge addresses.length B hB
  refine ⟨?_, hlen, ?_, ?_⟩
  · have h := cutBatches_flatten addresses B hB (addresses.length + 1) 0 (by omega)
    simpa [batches] using h
  · intro k hk
    rw [hlen] at hk
    have hk2 : k < (addresses.length + B - 1) / B := by omega
    have hk3 : (k + 2) * B ≤ addresses.length + B - 1 :=
      (Nat.le_div_iff_mul_le hB).mp hk
    have hk4 : (k + 2) * B = k * B + B + B := by ring
    rw [batches_eq_map addresses B hB, List.getElem?_map, List.getElem?_range hk2]
    simp only [Option.map_some', slice_length_eq]
    congr 1
    omega
  · intro hN
    have hpos := ceil_pos addresses.length B hB hN
    have hlt := ceil_pred_mul_lt addresses.length B hN
    have hcomm : B * ((addresses.length + B - 1) / B - 1)
        = ((addresses.length + B - 1) / B - 1) * B := Nat.mul_comm _ _
    have hsplit : (addresses.length + B - 1) / B * B
        = ((addresses.length + B - 1) / B - 1) * B + B := by
      have e : (addresses.length + B - 1) / B = ((addresses.length + B - 1) / B - 1) + 1 := by
        omega
      nth_rewrite 1 [e]
      ring
    refine ⟨?_, by omega, by omega⟩
    rw [List.getLast?_eq_getElem?, hlen, batches_eq_map addresses B hB, List.getElem?_map,
      List.getElem?_range (by omega)]
    simp only [Option.map_some', slice_length_eq]
    congr 1
    omega

/-- Witness of C1: 905 recipients with the configured batch size 900 give
two batches, of sizes 900 and 5. -/
theorem batches_partition_witness :
    0 < BATCH_SIZE ∧
    (batches (List.replicate 905 "0xa") BATCH_SIZE).flatten = List.replicate 905 "0xa" ∧
    (batches (List.replicate 905 "0xa") BATCH_SIZE).length = 2 ∧
    ((batches (List.replicate 905 "0xa") BATCH_SIZE)[0]?).map List.length = some 900 ∧
    (batches (List.replicate 905 "0xa") BATCH_SIZE).getLast?.map List.length = some 5 := by
  have h := batches_partition (List.replicate 905 "0xa") BATCH_SIZE (by decide)
  have hl : (List.replicate 905 "0xa" : List Address).length = 905 := List.length_replicate _ _
  rw [hl] at h
  have h2 : (batches (List.replicate 905 "0xa") BATCH_SIZE).length = 2 := h.2.1
  exact ⟨by decide, h.1, h2, h.2.2.1 0 (by rw [h2]; decide), (h.2.2.2 (by decide)).1⟩

/-! ## Amounts -/

theorem foldl_add_const (a : Int) (addresses : List Address) :
    ∀ v : Int, (addresses.map (fun _ => a)).foldl (fun x y => x + y) v
      = v + a * (addresses.length : Int) := by
  induction addresses with
  | nil => intro v; simp
  | cons x xs ih =>
    intro v
    simp only [List.map_cons, List.foldl_cons, List.length_cons, ih]
    push_cast
    ring

theorem reduceAdd_const (a : Int) (addresses : List Address) (h : addresses ≠ []) :
    reduceAdd (addresses.map (fun _ => a)) = .ok (a * (addresses.length : Int)) := by
  cases addresses with
  | nil => exact absurd rfl h
  | cons x xs =>
    simp only [List.map_cons, reduceAdd, foldl_add_const, List.length_cons]
    push_cast
    congr 1
    ring

theorem newEvents_append (tr evs : List Event) : newEvents tr (tr ++ evs) = evs := by
  simp [newEvents]

theorem estimateGas_eq (env : Env) (recipients : List Address) (values : List Int)
    (total : Int) (tr : List Event) (hv : reduceAdd values = .ok total) :
    estimateGas env recipients values tr =
      (match env.estimateGas (tr ++ [Event.estimateGas recipients values total]) with
        | .error e => .error e
        | .ok gasEstimate => .ok (gasEstimate * 12 / 10),
       tr ++ [Event.estimateGas recipients values total]) := by
  simp only [estimateGas, hv]
  cases env.estimateGas (tr ++ [Event.estimateGas recipients values total]) <;> rfl

/-- The six ways through the `try` block of `processBatch`. -/
theorem processBatchTry_cases (env : Env) (batch : List Address) (idx : Nat)
    (values : List Int) (total : Int) (tr : List Event) (hv : reduceAdd values = .ok total) :
    (∃ e, env.getFeeData (tr ++ [Event.getFeeData]) = .error e ∧
      processBatchTry env batch idx values total tr = (.error e, tr ++ [Event.getFeeData])) ∨
    (∃ gp e, env.getFeeData (tr ++ [Event.getFeeData]) = .ok gp ∧
      env.estimateGas (tr ++ [Event.getFeeData, Event.estimateGas batch values total])
        = .error e ∧
      processBatchTry env batch idx values total tr =
        (.error e, tr ++ [Event.getFeeData, Event.estimateGas batch values total])) ∨
    (∃ gp g e, env.getFeeData (tr ++ [Event.getFeeData]) = .ok gp ∧
      env.estimateGas (tr ++ [Event.getFeeData, Event.estimateGas batch values total])
        = .ok g ∧
      env.disperseEther (tr ++ [Event.getFeeData, Event.estimateGas batch values total,
        Event.disperseEther batch values total (g * 12 / 10) gp]) = .error e ∧
      processBatchTry env batch idx values total tr =
        (.error e, tr ++ [Event.getFeeData, Event.estimateGas batch values total,
          Event.disperseEther batch values total (g * 12 / 10) gp])) ∨
    (∃ gp g txHash e, env.getFeeData (tr ++ [Event.getFeeData]) = .ok gp ∧
      env.estimateGas (tr ++ [Event.getFeeData, Event.estimateGas batch values total])
        = .ok g ∧
      env.disperseEther (tr ++ [Event.getFeeData, Event.estimateGas batch values total,
        Event.disperseEther batch values total (g * 12 / 10) gp]) = .ok txHash ∧
      env.wait (tr ++ [Event.getFeeData, Event.estimateGas batch values total,
        Event.disperseEther batch values total (g * 12 / 10) gp, Event.wait txHash])
        = .error e ∧
      processBatchTry env batch idx values total tr =
        (.error e, tr ++ [Event.getFeeData, Event.estimateGas batch values total,
          Event.disperseEther batch values total (g * 12 / 10) gp, Event.wait txHash])) ∨
    (∃ gp g txHash receipt e, env.getFeeData (tr ++ [Event.getFeeData]) = .ok gp ∧
      env.estimateGas (tr ++ [Event.getFeeData, Event.estimateGas batch values total])
        = .ok g ∧
      env.disperseEther (tr ++ [Event.getFeeData, Event.estimateGas batch values total,
        Event.disperseEther batch values total (g * 12 / 10) gp]) = .ok txHash ∧
      env.wait (tr ++ [Event.getFeeData, Event.estimateGas batch values total,
        Event.disperseEther batch values total (g * 12 / 10) gp, Event.wait txHash])
        = .ok receipt ∧
      env.appendTx (tr ++ [Event.getFeeData, Event.estimateGas batch values total,
        Event.disperseEther batch values total (g * 12 / 10) gp, Event.wait txHash,
        Event.appendTx ⟨idx + 1, batch.length, txHash, receipt.blockNumber, receipt.gasUsed,
          batch⟩]) = .error e ∧
      processBatchTry env batch idx values total tr =
        (.error e, tr ++ [Event.getFeeData, Event.estimateGas batch values total,
          Event.disperseEther batch values total (g * 12 / 10) gp, Event.wait txHash,
          Event.appendTx ⟨idx + 1, batch.length, txHash, receipt.blockNumber, receipt.gasUsed,
            batch⟩])) ∨
    (∃ gp g txHash receipt, env.getFeeData (tr ++ [Event.getFeeData]) = .ok gp ∧
      env.estimateGas (tr ++ [Event.getFeeData, Event.estimateGas batch values total])
        = .ok g ∧
      env.disperseEther (tr ++ [Event.getFeeData, Event.estimateGas batch values total,
        Event.disperseEther batch values total (g * 12 / 10) gp]) = .ok txHash ∧
      env.wait (tr ++ [Event.getFeeData, Event.estimateGas batch values total,
        Event.disperseEther batch values total (g * 12 / 10) gp, Event.wait txHash])
        = .ok receipt ∧
      env.appendTx (tr ++ [Event.getFeeData, Event.estimateGas batch values total,
        Event.disperseEther batch values total (g * 12 / 10) gp, Event.wait txHash,
        Event.appendTx ⟨idx + 1, batch.length, txHash, receipt.blockNumber, receipt.gasUsed,
          batch⟩]) = .ok () ∧
      processBatchTry env batch idx values total tr =
        (.ok true, tr ++ [Event.getFeeData, Event.estimateGas batch values total,
          Event.disperseEther batch values total (g * 12 / 10) gp, Event.wait txHash,
          Event.appendTx ⟨idx + 1, batch.length, txHash, receipt.blockNumber, receipt.gasUsed,
            batch⟩])) := by
  cases h1 : env.getFeeData (tr ++ [Event.getFeeData]) with
  | error e =>
    left
    exact ⟨e, rfl, by simp [processBatchTry, h1]⟩
  | ok gp =>
    right
    cases h2 : env.estimateGas (tr ++ [Event.getFeeData, Event.estimateGas batch values total]) with
    | error e =>
      left
      exact ⟨gp, e, rfl, rfl, by simp [processBatchTry, h1, estimateGas_eq _ _ _ _ _ hv, h2]⟩
    | ok g =>
      right
      cases h3 : env.disperseEther (tr ++ [Event.getFeeData, Event.estimateGas batch values total,
        Event.disperseEther batch values total (g * 12 / 10) gp]) with
      | error e =>
        left
        exact ⟨gp, g, e, rfl, rfl, h3,
          by simp [processBatchTry, h1, estimateGas_eq _ _ _ _ _ hv, h2, h3]⟩
      | ok txHash =>
        right
        cases h4 : env.wait (tr ++ [Event.getFeeData, Event.estimateGas batch values total,
          Event.disperseEther batch values total (g * 12 / 10) gp, Event.wait txHash]) with
        | error e =>
          left
          exact ⟨gp, g, txHash, e, rfl, rfl, h3, h4,
            by simp [processBatchTry, h1, estimateGas_eq _ _ _ _ _ hv, h2, h3, h4]⟩
        | ok receipt =>
          right
          cases h5 : env.appendTx (tr ++ [Event.getFeeData, Event.estimateGas batch values total,
            Event.disperseEther batch values total (g * 12 / 10) gp, Event.wait txHash,
            Event.appendTx ⟨idx + 1, batch.length, txHash, receipt.blockNumber,
              receipt.gasUsed, batch⟩]) with
          | error e =>
            left
            exact ⟨gp, g, txHash, receipt, e, rfl, rfl, h3, h4, h5,
              by simp [processBatchTry, h1, estimateGas_eq _ _ _ _ _ hv, h2, h3, h4,
                saveTransactionRecord, h5]⟩
          | ok u =>
            right
            exact ⟨gp, g, txHash, receipt, rfl, rfl, h3, h4, h5,
              by simp [processBatchTry, h1, estimateGas_eq _ _ _ _ _ hv, h2, h3, h4,
                saveTransactionRecord, h5]⟩

theorem processBatch_of_try_ok (env : Env) (a : Int) (batch : List Address) (idx : Nat)
    (tr : List Event) (h : batch ≠ []) (b : Bool) (t : List Event)
    (ht : processBatchTry env batch idx (batch.map (fun _ => a)) (a * (batch.length : Int)) tr
      = (.ok b, t)) :
    processBatch env a batch idx tr = (.ok b, t) := by
  simp only [processBatch, reduceAdd_const a batch h, ht]

theorem processBatch_of_try_error (env : Env) (a : Int) (batch : List Address) (idx : Nat)
    (tr : List Event) (h : batch ≠ []) (m : String) (t : List Event)
    (ht : processBatchTry env batch idx (batch.map (fun _ => a)) (a * (batch.length : Int)) tr
      = (.error m, t)) :
    processBatch env a batch idx tr =
      (match env.appendErr (t ++ [Event.appendErr ⟨idx + 1, batch, m⟩]) with
        | .error e => .error e
        | .ok _ => .ok false,
       t ++ [Event.appendErr ⟨idx + 1, batch, m⟩]) := by
  simp only [processBatch, reduceAdd_const a batch h, ht, saveErrorLog]
  cases env.appendErr (t ++ [Event.appendErr ⟨idx + 1, batch, m⟩]) <;> rfl

/-- C3: for a non-empty batch the value list of `processBatch` has one entry
equal to the per-address amount for each recipient and the `totalValue` folded
over it is exactly `amount * len(recipients)`.  `processBatch` uses them in
its calls: once the fee data fetch has answered, it asks for a gas estimate
of that batch, that value list and that total as call value; once the gas
estimate has answered too, it submits `disperseEther` with that batch, that
value list, that total as transaction value, the scaled estimate as gas limit
and the fetched gas price.  No other `disperseEther` submission is made:
every one in the call carries that batch, that value list and that total. -/
theorem processBatch_totalValue (env : Env) (a : Int) (batch : List Address) (idx : Nat)
    (tr : List Event) (h : batch ≠ []) :
    (batch.map (fun _ => a)).length = batch.length ∧
    (∀ v ∈ batch.map (fun _ => a), v = a) ∧
    totalValue a batch = .ok (a * (batch.length : Int)) ∧
    (∀ r vs v gl gp,
      Event.disperseEther r vs v gl gp ∈ newEvents tr (processBatch env a batch idx tr).2 →
        r = batch ∧ vs = batch.map (fun _ => a) ∧ v = a * (batch.length : Int)) ∧
    (∀ gp, env.getFeeData (tr ++ [Event.getFeeData]) = .ok gp →
      ∃ rest, (processBatch env a batch idx tr).2 =
        tr ++ [Event.getFeeData,
          Event.estimateGas batch (batch.map (fun _ => a)) (a * (batch.length : Int))]
          ++ rest) ∧
    (∀ gp g, env.getFeeData (tr ++ [Event.getFeeData]) = .ok gp →
      env.estimateGas (tr ++ [Event.getFeeData,
        Event.estimateGas batch (batch.map (fun _ => a)) (a * (batch.length : Int))])
        = .ok g →
      ∃ rest, (processBatch env a batch idx tr).2 =
        tr ++ [Event.getFeeData,
          Event.estimateGas batch (batch.map (fun _ => a)) (a * (batch.length : Int)),
          Event.disperseEther batch (batch.map (fun _ => a)) (a * (batch.length : Int))
            (g * 12 / 10) gp]
          ++ rest) := by
  refine ⟨by simp, by simp, reduceAdd_const a batch h, ?_, ?_, ?_⟩
  · intro r vs v gl gp hmem
    rcases processBatchTry_cases env batch idx _ _ tr (reduceAdd_const a batch h) with
      ⟨e, _, ht⟩ | ⟨gp0, e, _, _, ht⟩ | ⟨gp0, g, e, _, _, _, ht⟩ |
      ⟨gp0, g, txHash, e, _, _, _, _, ht⟩ | ⟨gp0, g, txHash, receipt, e, _, _, _, _, _, ht⟩ |
      ⟨gp0, g, txHash, receipt, _, _, _, _, _, ht⟩
    all_goals
      first
      | rw [processBatch_of_try_error env a batch idx tr h _ _ ht] at hmem
      | rw [processBatch_of_try_ok env a batch idx tr h _ _ ht] at hmem
    all_goals
      simp only [List.append_assoc, newEvents_append, List.cons_append, List.nil_append,
        List.mem_cons, List.mem_singleton, List.not_mem_nil, or_false,
        Event.disperseEther.injEq, false_or, reduceCtorEq] at hmem
    all_goals exact ⟨hmem.1, hmem.2.1, hmem.2.2.1⟩
  · intro gp hfee
    rcases processBatchTry_cases env batch idx _ _ tr (reduceAdd_const a batch h) with
      ⟨e, h1, ht⟩ | ⟨gp0, e, h1, h2, ht⟩ | ⟨gp0, g, e, h1, h2, h3, ht⟩ |
      ⟨gp0, g, txHash, e, h1, h2, h3, h4, ht⟩ |
      ⟨gp0, g, txHash, receipt, e, h1, h2, h3, h4, h5, ht⟩ |
      ⟨gp0, g, txHash, receipt, h1, h2, h3, h4, h5, ht⟩
    all_goals
      first
      | rw [processBatch_of_try_error env a batch idx tr h _ _ ht]
      | rw [processBatch_of_try_ok env a batch idx tr h _ _ ht]
    all_goals
      first
      | (rw [h1] at hfee; cases hfee; done)
      | exact ⟨_, by simp only [List.append_assoc, List.cons_append, List.nil_append]; rfl⟩
  · intro gp g hfee hest
    rcases processBatchTry_cases env batch idx _ _ tr (reduceAdd_const a batch h) with
      ⟨e, h1, ht⟩ | ⟨gp0, e, h1, h2, ht⟩ | ⟨gp0, g0, e, h1, h2, h3, ht⟩ |
      ⟨gp0, g0, txHash, e, h1, h2, h3, h4, ht⟩ |
      ⟨gp0, g0, txHash, receipt, e, h1, h2, h3, h4, h5, ht⟩ |
      ⟨gp0, g0, txHash, receipt, h1, h2, h3, h4, h5, ht⟩
    all_goals
      first
      | rw [processBatch_of_try_error env a batch idx tr h _ _ ht]
      | rw [processBatch_of_try_ok env a batch idx tr h _ _ ht]
    all_goals
      first
      | (rw [h1] at hfee; cases hfee; done)
      | (rw [h2] at hest; cases hest; done)
      | (rw [h1] at hfee; rw [h2] at hest
         cases hfee
         cases hest
         exact ⟨_, by simp only [List.append_assoc, List.cons_append, List.nil_append]; rfl⟩)

/-- Witness of C3 on a batch of two recipients: the total is twice the
configured amount and it is the value of the submitted transaction. -/
theorem processBatch_totalValue_witness :
    ["0xa", "0xb"] ≠ ([] : List Address) ∧
    totalValue AMOUNT_PER_ADDRESS ["0xa", "0xb"] = .ok (AMOUNT_PER_ADDRESS * 2) ∧
    ∃ rest, (processBatch (envOk 100) AMOUNT_PER_ADDRESS ["0xa", "0xb"] 0 []).2 =
      [] ++ [Event.getFeeData,
        Event.estimateGas ["0xa", "0xb"] [AMOUNT_PER_ADDRESS, AMOUNT_PER_ADDRESS]
          (AMOUNT_PER_ADDRESS * 2),
        Event.disperseEther ["0xa", "0xb"] [AMOUNT_PER_ADDRESS, AMOUNT_PER_ADDRESS]
          (AMOUNT_PER_ADDRESS * 2) 120 7] ++ rest :=
  ⟨by decide,
    (processBatch_totalValue (envOk 100) AMOUNT_PER_ADDRESS ["0xa", "0xb"] 0 []
      (by decide)).2.2.1,
    (processBatch_totalValue (envOk 100) AMOUNT_PER_ADDRESS ["0xa", "0xb"] 0 []
      (by decide)).2.2.2.2.2 7 100 rfl rfl⟩

/-! ## Outcome and records of one batch -/

/-- When the error log can be written, `processBatch` on a non-empty batch
returns `true` or `false`. -/
theorem processBatch_returns (env : Env) (a : Int) (batch : List Address) (idx : Nat)
    (tr : List Event) (h : batch ≠ []) (hErr : ∀ t, env.appendErr t = .ok ()) :
    ∃ b t, processBatch env a batch idx tr = (.ok b, t) := by
  rcases processBatchTry_cases env batch idx _ _ tr (reduceAdd_const a batch h) with
    ⟨e, _, ht⟩ | ⟨gp0, e, _, _, ht⟩ | ⟨gp0, g, e, _, _, _, ht⟩ |
    ⟨gp0, g, txHash, e, _, _, _, _, ht⟩ | ⟨gp0, g, txHash, receipt, e, _, _, _, _, _, ht⟩ |
    ⟨gp0, g, txHash, receipt, _, _, _, _, _, ht⟩
  all_goals
    first
    | exact ⟨_, _, processBatch_of_try_ok env a batch idx tr h _ _ ht⟩
    | (rw [processBatch_of_try_error env a batch idx tr h _ _ ht, hErr]; exact ⟨_, _, rfl⟩)

/-- C6: when record appends succeed, `processBatch` on a non-empty batch
returns a boolean and appends exactly one record.  If the fee data fetch, the
gas estimation, the submission and the confirmation wait all succeed, it
makes these four calls in order, appends one success record (batch index + 1,
recipient count, transaction hash, block number, gas used, recipients) and
returns `true`.  If one of the four steps fails, it makes no later step,
appends one error record (batch index + 1, recipients, the error message of
that step) and returns `false`. -/
theorem processBatch_records (env : Env) (a : Int) (batch : List Address) (idx : Nat)
    (tr : List Event) (h : batch ≠ [])
    (hTx : ∀ t, env.appendTx t = .ok ()) (hErr : ∀ t, env.appendErr t = .ok ()) :
    (∃ b, (processBatch env a batch idx tr).1 = .ok b ∧
      (((newEvents tr (processBatch env a batch idx tr).2).filter isAppendTx).length = 1 ∧
        ((newEvents tr (processBatch env a batch idx tr).2).filter isAppendErr).length = 0 ∧
          b = true ∨
       ((newEvents tr (processBatch env a batch idx tr).2).filter isAppendTx).length = 0 ∧
        ((newEvents tr (processBatch env a batch idx tr).2).filter isAppendErr).length = 1 ∧
          b = false)) ∧
    (∀ e, env.getFeeData (tr ++ [Event.getFeeData]) = .error e →
      processBatch env a batch idx tr =
        (.ok false, tr ++ [Event.getFeeData, Event.appendErr ⟨idx + 1, batch, e⟩])) ∧
    (∀ gp e, env.getFeeData (tr ++ [Event.getFeeData]) = .ok gp →
      env.estimateGas (tr ++ [Event.getFeeData,
        Event.estimateGas batch (batch.map (fun _ => a)) (a * (batch.length : Int))])
        = .error e →
      processBatch env a batch idx tr =
        (.ok false, tr ++ [Event.getFeeData,
          Event.estimateGas batch (batch.map (fun _ => a)) (a * (batch.length : Int)),
          Event.appendErr ⟨idx + 1, batch, e⟩])) ∧
    (∀ gp g e, env.getFeeData (tr ++ [Event.getFeeData]) = .ok gp →
      env.estimateGas (tr ++ [Event.getFeeData,
        Event.estimateGas batch (batch.map (fun _ => a)) (a * (batch.length : Int))])
        = .ok g →
      env.disperseEther (tr ++ [Event.getFeeData,
        Event.estimateGas batch (batch.map (fun _ => a)) (a * (batch.length : Int)),
        Event.disperseEther batch (batch.map (fun _ => a)) (a * (batch.length : Int))
          (g * 12 / 10) gp]) = .error e →
      processBatch env a batch idx tr =
        (.ok false, tr ++ [Event.getFeeData,
          Event.estimateGas batch (batch.map (fun _ => a)) (a * (batch.length : Int)),
          Event.disperseEther batch (batch.map (fun _ => a)) (a * (batch.length : Int))
            (g * 12 / 10) gp,
          Event.appendErr ⟨idx + 1, batch, e⟩])) ∧
    (∀ gp g txHash e, env.getFeeData (tr ++ [Event.getFeeData]) = .ok gp →
      env.estimateGas (tr ++ [Event.getFeeData,
        Event.estimateGas batch (batch.map (fun _ => a)) (a * (batch.length : Int))])
        = .ok g →
      env.disperseEther (tr ++ [Event.getFeeData,
        Event.estimateGas batch (batch.map (fun _ => a)) (a * (batch.length : Int)),
        Event.disperseEther batch (batch.map (fun _ => a)) (a * (batch.length : Int))
          (g * 12 / 10) gp]) = .ok txHash →
      env.wait (tr ++ [Event.getFeeData,
        Event.estimateGas batch (batch.map (fun _ => a)) (a * (batch.length : Int)),
        Event.disperseEther batch (batch.map (fun _ => a)) (a * (batch.length : Int))
          (g * 12 / 10) gp,
        Event.wait txHash]) = .error e →
      processBatch env a batch idx tr =
        (.ok false, tr ++ [Event.getFeeData,
          Event.estimateGas batch (batch.map (fun _ => a)) (a * (batch.length : Int)),
          Event.disperseEther batch (batch.map (fun _ => a)) (a * (batch.length : Int))
            (g * 12 / 10) gp,
          Event.wait txHash,
          Event.appendErr ⟨idx + 1, batch, e⟩])) ∧
    (∀ gp g txHash receipt, env.getFeeData (tr ++ [Event.getFeeData]) = .ok gp →
      env.estimateGas (tr ++ [Event.getFeeData,
        Event.estimateGas batch (batch.map (fun _ => a)) (a * (batch.length : Int))])
        = .ok g →
      env.disperseEther (tr ++ [Event.getFeeData,
        Event.estimateGas batch (batch.map (fun _ => a)) (a * (batch.length : Int)),
        Event.disperseEther batch (batch.map (fun _ => a)) (a * (batch.length : Int))
          (g * 12 / 10) gp]) = .ok txHash →
      env.wait (tr ++ [Event.getFeeData,
        Event.estimateGas batch (batch.map (fun _ => a)) (a * (batch.length : Int)),
        Event.disperseEther batch (batch.map (fun _ => a)) (a * (batch.length : Int))
          (g * 12 / 10) gp,
        Event.wait txHash]) = .ok receipt →
      processBatch env a batch idx tr =
        (.ok true, tr ++ [Event.getFeeData,
          Event.estimateGas batch (batch.map (fun _ => a)) (a * (batch.length : Int)),
          Event.disperseEther batch (batch.map (fun _ => a)) (a * (batch.length : Int))
            (g * 12 / 10) gp,
          Event.wait txHash,
          Event.appendTx ⟨idx + 1, batch.length, txHash, receipt.blockNumber, receipt.gasUsed,
            batch⟩])) := by
  rcases processBatchTry_cases env batch idx _ _ tr (reduceAdd_const a batch h) with
    ⟨e, h1, ht⟩ | ⟨gp0, e, h1, h2, ht⟩ | ⟨gp0, g, e, h1, h2, h3, ht⟩ |
    ⟨gp0, g, txHash, e, h1, h2, h3, h4, ht⟩ |
    ⟨gp0, g, txHash, receipt, e, h1, h2, h3, h4, h5, ht⟩ |
    ⟨gp0, g, txHash, receipt, h1, h2, h3, h4, h5, ht⟩
  case inr.inr.inr.inr.inl => rw [hTx] at h5; exact absurd h5 (by simp)
  all_goals
    first
    | rw [processBatch_of_try_error env a batch idx tr h _ _ ht, hErr]
    | rw [processBatch_of_try_ok env a batch idx tr h _ _ ht]
  all_goals
    refine ⟨⟨_, rfl, ?_⟩, ?_, ?_, ?_, ?_, ?_⟩
  all_goals
    intros
    simp_all [newEvents_append, isAppendTx, isAppendErr]

/-- Witness of C6: a batch of two recipients in a world where every call
succeeds. -/
theorem processBatch_records_witness :
    (["0xa", "0xb"] : List Address) ≠ [] ∧
    (∀ t, (envOk 100).appendTx t = .ok ()) ∧
    (∀ t, (envOk 100).appendErr t = .ok ()) ∧
    processBatch (envOk 100) 5 ["0xa", "0xb"] 0 [] =
      (.ok true, [Event.getFeeData,
        Event.estimateGas ["0xa", "0xb"] [5, 5] 10,
        Event.disperseEther ["0xa", "0xb"] [5, 5] 10 120 7,
        Event.wait "0xhash",
        Event.appendTx ⟨1, 2, "0xhash", 42, 21000, ["0xa", "0xb"]⟩]) :=
  ⟨by decide, fun _ => rfl, fun _ => rfl,
    (processBatch_records (envOk 100) 5 ["0xa", "0xb"] 0 [] (by decide)
      (fun _ => rfl) (fun _ => rfl)).2.2.2.2.2 7 100 "0xhash" ⟨42, 21000⟩ rfl rfl rfl rfl⟩

/-- C5 (evaluation at the failing input): when the fee data fetch fails and
the error log cannot be written, `processBatch` on a non-empty batch ends by
throwing the error of the append instead of returning `false`; in `start`
that error reaches the `catch` block of line 162, so the run ends in the
error branch after the first of two batches. -/
theorem processBatch_throws_when_error_log_fails :
    processBatch envLogFails AMOUNT_PER_ADDRESS ["0xa"] 0 [] =
      (.error "ENOSPC: no space left on device",
        [Event.getFeeData, Event.appendErr ⟨1, ["0xa"], "rpc down"⟩]) ∧
    start envLogFails AMOUNT_PER_ADDRESS 1 (.ok ["0xa", "0xb"]) (.ok 2000000000000) =
      ⟨Outcome.failed "ENOSPC: no space left on device", [(["0xa"], 0)],
        [Event.getFeeData, Event.appendErr ⟨1, ["0xa"], "rpc down"⟩]⟩ := by
  constructor <;> decide

/-! ## The run -/

theorem slice_ne_nil (addresses : List Address) (i B : Nat) (hB : 0 < B)
    (hi : i < addresses.length) : slice addresses i (i + B) ≠ [] := by
  intro h
  have hl := slice_length_eq addresses i B
  rw [h] at hl
  simp only [List.length_nil] at hl
  omega

theorem runBatches_returns
    (pb : List Address → Nat → List Event → Except String Bool × List Event)
    (addresses : List Address) (B : Nat) (hB : 0 < B)
    (hret : ∀ batch idx tr, batch ≠ [] → ∃ b t, pb batch idx tr = (.ok b, t)) :
    ∀ (fuel i : Nat) (tr : List Event), addresses.length - i < fuel →
      (runBatches pb addresses B fuel i tr).outcome = Outcome.complete ∧
      (runBatches pb addresses B fuel i tr).calls =
        (List.range ((addresses.length - i + B - 1) / B)).map
          (fun k => (slice addresses (i + k * B) (i + k * B + B), (i + k * B) / B)) := by
  intro fuel
  induction fuel with
  | zero => intro i tr h; omega
  | succ fuel ih =>
    intro i tr h
    by_cases hi : i < addresses.length
    · obtain ⟨b, t, hpb⟩ := hret (slice addresses i (i + B)) (i / B) tr
        (slice_ne_nil addresses i B hB hi)
      obtain ⟨ih1, ih2⟩ := ih (i + B)
        (if (!b) = true then t ++ [Event.sleep 60000] else t ++ [Event.sleep 50000]) (by omega)
      simp only [runBatches, if_pos hi, hpb]
      refine ⟨ih1, ?_⟩
      rw [ih2, ceil_step _ _ _ hB hi, List.range_succ_eq_map, List.map_cons, List.map_map]
      congr 1
      · simp
      · apply List.map_congr_left
        intro k _
        simp only [Function.comp, Nat.succ_eq_add_one]
        have e : i + (k + 1) * B = i + B + k * B := by ring
        rw [e]
    · have e : addresses.length - i + B - 1 = B - 1 := by omega
      simp only [runBatches, if_neg hi, e, Nat.div_eq_of_lt (show B - 1 < B by omega)]
      exact ⟨trivial, rfl⟩

/-- With a positive batch size the loop never runs out of iterations,
whatever `processBatch` does. -/
theorem runBatches_fuel_enough
    (pb : List Address → Nat → List Event → Except String Bool × List Event)
    (addresses : List Address) (B : Nat) (hB : 0 < B) :
    ∀ (fuel i : Nat) (tr : List Event), addresses.length - i < fuel →
      (runBatches pb addresses B fuel i tr).outcome ≠ Outcome.outOfFuel := by
  intro fuel
  induction fuel with
  | zero => intro i tr h; omega
  | succ fuel ih =>
    intro i tr h
    by_cases hi : i < addresses.length
    · simp only [runBatches, if_pos hi]
      rcases hpb : pb (slice addresses i (i + B)) (i / B) tr with ⟨res, t⟩
      cases res with
      | error e => simp
      | ok b => exact ih (i + B) _ (by omega)
    · simp [runBatches, if_neg hi]

/-- End-to-end scenario: the first batch succeeds and the gas estimation of
the second fails; the run writes one success record and one error record and
reaches the complete state. -/
theorem start_second_estimate_fails :
    (start envSecondEstimateFails 5 2 (.ok ["0xa", "0xb", "0xc"]) (.ok 15)).outcome
      = Outcome.complete ∧
    ((start envSecondEstimateFails 5 2 (.ok ["0xa", "0xb", "0xc"]) (.ok 15)).trace.filter
      isAppendTx).length = 1 ∧
    ((start envSecondEstimateFails 5 2 (.ok ["0xa", "0xb", "0xc"]) (.ok 15)).trace.filter
      isAppendErr).length = 1 := by
  decide

/-- Sample renderings of `formatEther`. -/
theorem formatEther_samples :
    formatEther 650000000000 = "0.00000065" ∧
    formatEther 0 = "0.0" ∧
    formatEther 1000000000000000000 = "1.0" ∧
    formatEther (-1500000000000000000) = "-1.5" := by
  decide

/-- C2: when the balance is below `amountPerAddress * recipientCount`, `start`
ends in its error branch without invoking `processBatch` and without any
outside call: no gas estimation, no submission, no success record and no
error record. -/
theorem start_insufficient_balance (env : Env) (amount : Int) (B : Nat)
    (addresses : List Address) (balance : Nat)
    (h : (balance : Int) < amount * (addresses.length : Int)) :
    start env amount B (.ok addresses) (.ok balance) =
      ⟨Outcome.failed (insufficientMessage balance (amount * (addresses.length : Int))),
        [], []⟩ := by
  simp only [start, startWith, totalRequired, if_pos h]

/-- Witness of C2: balance zero and one recipient. -/
theorem start_insufficient_balance_witness :
    ((0 : Nat) : Int) < AMOUNT_PER_ADDRESS * ((["0xa"] : List Address).length : Int) ∧
    start (envOk 100) AMOUNT_PER_ADDRESS BATCH_SIZE (.ok ["0xa"]) (.ok 0) =
      ⟨Outcome.failed "余额不足。当前余额: 0.0 ETH, 需要: 0.00000065 ETH", [], []⟩ :=
  ⟨by decide, start_insufficient_balance (envOk 100) AMOUNT_PER_ADDRESS BATCH_SIZE ["0xa"] 0
    (by decide)⟩

/-- C4: when the preflight check passes and every `processBatch` call on a
non-empty batch returns a boolean, `start` with a positive batch size reaches
the complete state and invokes `processBatch` exactly `ceil(N/B)` times, the
`k`-th invocation receiving `slice(k*B, k*B + B)` and batch index `k`; the
batches are those of `batches`, and no batch index occurs twice, whatever the
outcomes are. -/
theorem start_invokes_each_batch_once
    (pb : List Address → Nat → List Event → Except String Bool × List Event)
    (amount : Int) (B : Nat) (addresses : List Address) (balance : Nat)
    (hB : 0 < B)
    (hpre : ¬ ((balance : Int) < amount * (addresses.length : Int)))
    (hret : ∀ batch idx tr, batch ≠ [] → ∃ b t, pb batch idx tr = (.ok b, t)) :
    (startWith pb amount B (.ok addresses) (.ok balance)).outcome = Outcome.complete ∧
    (startWith pb amount B (.ok addresses) (.ok balance)).calls.length
      = (addresses.length + B - 1) / B ∧
    (startWith pb amount B (.ok addresses) (.ok balance)).calls =
      (List.range ((addresses.length + B - 1) / B)).map
        (fun k => (slice addresses (k * B) (k * B + B), k)) ∧
    (startWith pb amount B (.ok addresses) (.ok balance)).calls.map Prod.fst
      = batches addresses B ∧
    ((startWith pb amount B (.ok addresses) (.ok balance)).calls.map Prod.snd).Nodup := by
  obtain ⟨h1, h2⟩ := runBatches_returns pb addresses B hB hret (addresses.length + 1) 0 []
    (by omega)
  have hcalls : (startWith pb amount B (.ok addresses) (.ok balance)).calls =
      (List.range ((addresses.length + B - 1) / B)).map
        (fun k => (slice addresses (k * B) (k * B + B), k)) := by
    simp only [startWith, totalRequired, if_neg hpre, h2, Nat.sub_zero, Nat.zero_add]
    apply List.map_congr_left
    intro k _
    rw [Nat.mul_div_cancel _ hB]
  refine ⟨?_, ?_, hcalls, ?_, ?_⟩
  · simp only [startWith, totalRequired, if_neg hpre, h1]
  · rw [hcalls]; simp
  · rw [hcalls, batches_eq_map addresses B hB, List.map_map]
    rfl
  · rw [hcalls, List.map_map]
    have e : (Prod.snd ∘ fun k => (slice addresses (k * B) (k * B + B), k)) = id := rfl
    rw [e, List.map_id]
    exact List.nodup_range _

/-- Witness of C4: three recipients in batches of two, in a world in which
every batch fails at the fee data fetch. -/
theorem start_invokes_each_batch_once_witness :
    0 < 2 ∧
    ¬ (((100 : Nat) : Int) < 5 * ((["0xa", "0xb", "0xc"] : List Address).length : Int)) ∧
    (∀ batch idx tr, batch ≠ [] → ∃ b t, processBatch envFeeFails 5 batch idx tr = (.ok b, t)) ∧
    (startWith (processBatch envFeeFails 5) 5 2 (.ok ["0xa", "0xb", "0xc"]) (.ok 100)).outcome
      = Outcome.complete ∧
    (startWith (processBatch envFeeFails 5) 5 2 (.ok ["0xa", "0xb", "0xc"]) (.ok 100)).calls
      = [(["0xa", "0xb"], 0), (["0xc"], 1)] := by
  have hret : ∀ batch idx tr, batch ≠ [] →
      ∃ b t, processBatch envFeeFails 5 batch idx tr = (.ok b, t) :=
    fun batch idx tr hne => processBatch_returns envFeeFails 5 batch idx tr hne (fun _ => rfl)
  have h := start_invokes_each_batch_once (processBatch envFeeFails 5) 5 2
    ["0xa", "0xb", "0xc"] 100 (by decide) (by decide) hret
  exact ⟨by decide, by decide, hret, h.1, h.2.2.1⟩

/-- C9 (counterexample): with an empty recipient list and balance zero,
`start` reaches the complete state, not the error branch. -/
theorem start_empty_list_completes :
    (start (envOk 100) AMOUNT_PER_ADDRESS BATCH_SIZE (.ok []) (.ok 0)).outcome
      = Outcome.complete ∧
    ∀ message, (start (envOk 100) AMOUNT_PER_ADDRESS BATCH_SIZE (.ok []) (.ok 0)).outcome
      ≠ Outcome.failed message := by
  have h : (start (envOk 100) AMOUNT_PER_ADDRESS BATCH_SIZE (.ok []) (.ok 0)).outcome
      = Outcome.complete := by decide
  refine ⟨h, fun message => ?_⟩
  rw [h]
  simp

/-- C9 (amended): with an empty recipient list, for every wallet balance,
amount and batch size, `start` passes the preflight check, invokes
`processBatch` zero times, makes no outside call and reaches the complete
state. -/
theorem start_empty_list (env : Env) (amount : Int) (B : Nat) (balance : Nat) :
    start env amount B (.ok []) (.ok balance) = ⟨Outcome.complete, [], []⟩ := by
  simp [start, startWith, totalRequired, runBatches]

/-! ## Gas scaling -/

/-- C7 (counterexample): for the raw estimate 1 `estimateGas` returns 1,
while `ceil(1 * 1.2)` is 2; the returned limit is below `12 * r / 10`. -/
theorem estimateGas_rounds_down :
    (estimateGas (envOk 1) ["0xa"] [AMOUNT_PER_ADDRESS] []).1 = .ok 1 ∧
    ceilScaled 1 = 2 ∧
    ¬ (12 * 1 ≤ 10 * 1) := by
  decide

/-- C7 (amended): for every raw estimate `r` answered by the chain client,
`estimateGas` returns `floor(r * 1.2)`, the greatest integer that is at most
`12 * r / 10`; this is `ceil(r * 1.2)` exactly when `r` is a multiple of 5. -/
theorem estimateGas_floor (env : Env) (recipients : List Address) (values : List Int)
    (total : Int) (tr : List Event) (r : Nat)
    (hv : reduceAdd values = .ok total)
    (hr : env.estimateGas (tr ++ [Event.estimateGas recipients values total]) = .ok r) :
    ∃ g, (estimateGas env recipients values tr).1 = .ok g ∧
      10 * g ≤ 12 * r ∧ 12 * r < 10 * (g + 1) ∧
      (g = ceilScaled r ↔ 5 ∣ r) := by
  refine ⟨r * 12 / 10, ?_, ?_, ?_, ?_⟩
  · rw [estimateGas_eq env recipients values total tr hv, hr]
  · omega
  · omega
  · unfold ceilScaled
    omega

/-- Witness of C7 (amended): raw estimate 7 on a batch of one recipient. -/
theorem estimateGas_floor_witness :
    reduceAdd [AMOUNT_PER_ADDRESS] = .ok AMOUNT_PER_ADDRESS ∧
    (envOk 7).estimateGas ([] ++ [Event.estimateGas ["0xa"] [AMOUNT_PER_ADDRESS]
      AMOUNT_PER_ADDRESS]) = .ok 7 ∧
    ∃ g, (estimateGas (envOk 7) ["0xa"] [AMOUNT_PER_ADDRESS] []).1 = .ok g ∧
      10 * g ≤ 12 * 7 ∧ 12 * 7 < 10 * (g + 1) ∧ (g = ceilScaled 7 ↔ 5 ∣ 7) :=
  ⟨rfl, rfl, estimateGas_floor (envOk 7) ["0xa"] [AMOUNT_PER_ADDRESS] AMOUNT_PER_ADDRESS [] 7
    rfl rfl⟩

/-- C8: for every raw estimate `r` answered by the chain client, the limit
`estimateGas` returns is `r * 12 / 10` in integer arithmetic, whatever the
recipients, values and history are; it is at least `r`, and for `r = 100` it
is exactly 120. -/
theorem estimateGas_ge_raw (env : Env) (recipients : List Address) (values : List Int)
    (total : Int) (tr : List Event) (r : Nat)
    (hv : reduceAdd values = .ok total)
    (hr : env.estimateGas (tr ++ [Event.estimateGas recipients values total]) = .ok r) :
    (estimateGas env recipients values tr).1 = .ok (r * 12 / 10) ∧
    r ≤ r * 12 / 10 ∧
    (r = 100 → (estimateGas env recipients values tr).1 = .ok 120) := by
  have h : (estimateGas env recipients values tr).1 = .ok (r * 12 / 10) := by
    rw [estimateGas_eq env recipients values total tr hv, hr]
  refine ⟨h, by omega, ?_⟩
  intro h100
  rw [h, h100]

/-- Witness of C8: raw estimate 100 on a batch of one recipient. -/
theorem estimateGas_ge_raw_witness :
    reduceAdd [AMOUNT_PER_ADDRESS] = .ok AMOUNT_PER_ADDRESS ∧
    (envOk 100).estimateGas ([] ++ [Event.estimateGas ["0xa"] [AMOUNT_PER_ADDRESS]
      AMOUNT_PER_ADDRESS]) = .ok 100 ∧
    (estimateGas (envOk 100) ["0xa"] [AMOUNT_PER_ADDRESS] []).1 = .ok 120 :=
  ⟨rfl, rfl, (estimateGas_ge_raw (envOk 100) ["0xa"] [AMOUNT_PER_ADDRESS] AMOUNT_PER_ADDRESS
    [] 100 rfl rfl).2.2 rfl⟩

/-! ## Preflight total -/

theorem batches_ne_nil (addresses : List Address) (B : Nat) (hB : 0 < B) :
    ∀ b ∈ batches addresses B, b ≠ [] := by
  intro b hb
  rw [batches_eq_map addresses B hB, List.mem_map] at hb
  obtain ⟨k, hk, rfl⟩ := hb
  rw [List.mem_range] at hk
  apply slice_ne_nil addresses (k * B) B hB
  have h1 : k + 1 ≤ (addresses.length + B - 1) / B := hk
  have h2 := (Nat.le_div_iff_mul_le hB).mp h1
  have h3 : (k + 1) * B = k * B + B := by ring
  omega

theorem mapM_totalValue (a : Int) (bs : List (List Address)) (h : ∀ b ∈ bs, b ≠ []) :
    bs.mapM (totalValue a) = .ok (bs.map (fun b => a * (b.length : Int))) := by
  induction bs with
  | nil => rfl
  | cons b bs ih =>
    have hb : totalValue a b = .ok (a * (b.length : Int)) :=
      reduceAdd_const a b (h b (List.mem_cons_self _ _))
    have ih2 := ih (fun c hc => h c (List.mem_cons_of_mem _ hc))
    simp only [List.mapM_cons, hb, ih2, List.map_cons]
    rfl

/-- C10: for a positive batch size, `processBatch` computes a `totalValue` for
every batch cut by `start`, and the sum of these over all batches is the
`totalRequired = amount * recipientCount` of the preflight check; so when the
preflight check passes, the balance is at least that sum. -/
theorem batches_totalValue_sum (a : Int) (B : Nat) (addresses : List Address) (hB : 0 < B) :
    ∃ vs, (batches addresses B).mapM (totalValue a) = .ok vs ∧
      vs.sum = totalRequired a addresses ∧
      totalRequired a addresses = a * (addresses.length : Int) ∧
      ∀ balance : Nat, ¬ ((balance : Int) < totalRequired a addresses) →
        vs.sum ≤ (balance : Int) := by
  have hsum : ((batches addresses B).map (fun b => a * (b.length : Int))).sum
      = totalRequired a addresses := by
    have hflat : (batches addresses B).flatten = addresses := by
      have h := cutBatches_flatten addresses B hB (addresses.length + 1) 0 (by omega)
      simpa [batches] using h
    have hlen : ((batches addresses B).map List.length).sum = addresses.length := by
      rw [← List.length_flatten, hflat]
    have hcast : ((batches addresses B).map (fun b => a * (b.length : Int))).sum
        = a * (((batches addresses B).map List.length).sum : Nat) := by
      generalize batches addresses B = bs
      induction bs with
      | nil => simp
      | cons b bs ih =>
        simp only [List.map_cons, List.sum_cons, ih]
        push_cast
        ring
    rw [hcast, hlen, totalRequired]
  refine ⟨_, mapM_totalValue a _ (batches_ne_nil addresses B hB), hsum, rfl, ?_⟩
  intro balance hpre
  rw [hsum]
  omega

/-- Witness of C10: three recipients in batches of two. -/
theorem batches_totalValue_sum_witness :
    0 < 2 ∧
    ∃ vs, (batches ["0xa", "0xb", "0xc"] 2).mapM (totalValue 5) = .ok vs ∧
      vs.sum = totalRequired 5 ["0xa", "0xb", "0xc"] ∧
      totalRequired 5 ["0xa", "0xb", "0xc"] = 5 * ((["0xa", "0xb", "0xc"] : List Address).length : Int) ∧
      ∀ balance : Nat, ¬ ((balance : Int) < totalRequired 5 ["0xa", "0xb", "0xc"]) →
        vs.sum ≤ (balance : Int) :=
  ⟨by decide, batches_totalValue_sum 5 2 ["0xa", "0xb", "0xc"] (by decide)⟩

end Dispear
